import Mathlib

/-!
Verification development for the history core of mcfly
(`src/history/history.rs`): the append-only command log, the ingestion
filter `should_add`, the scored-view builder `build_cache_table` and the
retrieval function `find_matches`.

Modelling conventions:
* SQL REAL arithmetic is modelled with the rationals `Rat` (the values
  involved are exact small rationals).
* A row of the `commands` table is `Row`.  The schema declares
  `when_run`, `exit_code` and `session_id` NOT NULL, so they are plain
  `Int` / `String`; `dir` and `old_dir` are nullable.
* In a SQLite `GROUP BY cmd` query with several aggregates, the bare
  columns (`id`, `session_id`, ...) are documented to come from an
  ARBITRARY row of the group.  To keep the model executable, one
  concrete choice is pinned: the max-id row of the group (`maxIdRow`).
  The theorems below only assert properties that hold under every
  representative choice (aggregate columns, which are
  representative-independent, and counting/permutation facts), or
  carry hypotheses — such as a singleton group — under which the
  representative is forced.
* The clock (`strftime('%s','now')` and the default `end_time`)
  appears as an explicit parameter `now`.
* `CREATE TEMP TABLE ... AS SELECT ... ORDER BY id DESC` stores the
  rows in the order of the SELECT.  The `ORDER BY rank DESC` of
  `find_matches` has no secondary sort key and SQLite leaves the
  relative order of equal-rank rows undefined; the model pins a stable
  sort of the stored order as one concrete choice, and no theorem
  below depends on the order of equal-rank rows.
-/

/-- Rows of the `commands` table, as created by the schema in
`from_bash_history` and inserted by `History::add`. -/
structure Row where
  id : Int
  cmd : String
  cmd_tpl : String
  session_id : String
  when_run : Int
  exit_code : Int
  dir : Option String
  old_dir : Option String
  deriving DecidableEq, Repr

/-- Weights record (`weights::Weights`): eight floating point
coefficients combined into the rank. -/
structure Weights where
  offset : Rat
  age : Rat
  exit : Rat
  recent_failure : Rat
  dir : Rat
  overlap : Rat
  immediate_overlap : Rat
  occurrences : Rat
  deriving DecidableEq, Repr

/-- Rows of the temporary `contextual_commands` table created by
`build_cache_table`: the source columns of the representative row of
the group plus the seven features and the rank. -/
structure ViewRow where
  id : Int
  cmd : String
  cmd_tpl : String
  session_id : String
  when_run : Int
  exit_code : Int
  dir : Option String
  age_factor : Rat
  exit_factor : Rat
  recent_failure_factor : Rat
  dir_factor : Rat
  overlap_factor : Rat
  immediate_overlap_factor : Rat
  occurrences_factor : Rat
  rank : Rat
  deriving DecidableEq, Repr, Inhabited

/-- Fixed ignore list `IGNORED_COMMANDS` of `history.rs`. -/
def IGNORED_COMMANDS : List String :=
  ["pwd", "ls", "cd", "cd ..", "clear", "history", "mcfly search"]

instance rowIdDescDec : DecidableRel (fun a b : Row => b.id ≤ a.id) :=
  fun a b => inferInstanceAs (Decidable (b.id ≤ a.id))

instance viewIdDescDec : DecidableRel (fun a b : ViewRow => b.id ≤ a.id) :=
  fun a b => inferInstanceAs (Decidable (b.id ≤ a.id))

instance viewRankDescDec : DecidableRel (fun a b : ViewRow => b.rank ≤ a.rank) :=
  fun a b => inferInstanceAs (Decidable (b.rank ≤ a.rank))

/-- SQL `WHERE session_id = ?` filter of `History::commands`; with no
session id there is no filter. -/
def sessionMatches (session : Option String) (r : Row) : Bool :=
  match session with
  | none => true
  | some sid => r.session_id == sid

/-- Model of `History::commands(session_id, num, offset)`:
`SELECT ... FROM commands [WHERE session_id = ?] ORDER BY id DESC
LIMIT num OFFSET offset`. -/
def commandsQ (log : List Row) (session : Option String) (num : Nat) (offset : Nat) : List Row :=
  (((log.filter (sessionMatches session)).insertionSort
      (fun a b => b.id ≤ a.id)).drop offset).take num

/-- Model of `History::last_command(session_id)`: the first row of
`commands(session_id, 1, 0)`. -/
def lastCommand (log : List Row) (session : Option String) : Option Row :=
  (commandsQ log session 1 0).head?

/-- Model of `History::last_command_templates`. -/
def lastCommandTemplates (log : List Row) (session : Option String) (num : Nat) (offset : Nat) :
    List String :=
  (commandsQ log session num offset).map Row.cmd_tpl

/-- Model of `History::should_add`: the five filter rules, in the order
of the source. -/
def shouldAdd (log : List Row) (command : String) : Bool :=
  if command.isEmpty then false
  else if command.startsWith "#mcfly:" then false
  else if command.startsWith " " then false
  else if IGNORED_COMMANDS.contains command then false
  else
    match lastCommand log none with
    | none => true
    | some last => !(command == last.cmd)

/-- Next id handed out by the AUTOINCREMENT primary key: one more than
the largest id in the log. -/
def nextId (log : List Row) : Int :=
  (log.map Row.id).foldr max 0 + 1

/-- Model of `History::add`: the INSERT appends one row with the next
id.  The template `cmd_tpl` is the output of the consumed simplifier
`SimplifiedCommand::new(command, true).result`, passed here as an
argument because the simplifier is an external collaborator. -/
def add (log : List Row) (command : String) (cmd_tpl : String) (session_id : String)
    (dir : String) (when_run : Int) (exit_code : Int) (old_dir : Option String) : List Row :=
  log ++ [{ id := nextId log, cmd := command, cmd_tpl := cmd_tpl, session_id := session_id,
            when_run := when_run, exit_code := exit_code, dir := some dir, old_dir := old_dir }]

/-- Model of the SQLite `LIKE` operator (no ESCAPE clause): `%` matches
any sequence, `_` matches exactly one character, other characters match
ASCII case-insensitively. -/
def sqlLike : List Char → List Char → Bool
  | [], s => s.isEmpty
  | p :: ps, s =>
    if p = '%' then s.tails.any (fun t => sqlLike ps t)
    else
      match s with
      | [] => false
      | c :: cs =>
        if p = '_' then sqlLike ps cs
        else (p.toLower == c.toLower) && sqlLike ps cs

/-- Holds when `s` contains `sub` literally, character for character:
the reading of "contains the search string as a case-sensitive
substring" used by the specification of the retrieval component. -/
def containsLiteral (s : String) (sub : String) : Bool :=
  decide (sub.toList <:+: s.toList)

/-- Maximum of a list of integers, seeded with the head (`0` on the
empty list, which the callers never hit). -/
def imax0 : List Int → Int
  | [] => 0
  | x :: xs => xs.foldr max x

/-- Minimum of a list of integers, seeded with the head. -/
def imin0 : List Int → Int
  | [] => 0
  | x :: xs => xs.foldr min x

/-- Minimum of a nonempty list of rationals, written with an explicit
seed: models the SQL `MIN` aggregate over a group. -/
def qminSeed (a : Rat) (l : List Rat) : Rat :=
  l.foldr min a

/-- Value of `SELECT MAX(when_run) FROM commands`. -/
def logWhenMax (log : List Row) : Int :=
  imax0 (log.map Row.when_run)

/-- Value of `SELECT MIN(when_run) FROM commands` before the
degeneracy adjustment. -/
def logWhenMinRaw (log : List Row) : Int :=
  imin0 (log.map Row.when_run)

/-- Effective `when_run_min` of `build_cache_table`: one hour is
subtracted when the raw min equals the max (`when_run_min -= 60*60`). -/
def logWhenMin (log : List Row) : Int :=
  if logWhenMinRaw log = logWhenMax log then logWhenMinRaw log - 3600
  else logWhenMinRaw log

/-- Bound value of `:when_run_spread` = `when_run_max - when_run_min`. -/
def logSpread (log : List Row) : Rat :=
  ((logWhenMax log : Rat) - (logWhenMin log : Rat))

/-- Value of `select count(*) as c FROM commands GROUP BY cmd order by
c desc limit 1`: the largest number of rows sharing one `cmd`. -/
def maxOccurrences (log : List Row) : Rat :=
  ((((log.map Row.cmd).dedup).map (fun c => log.countP (fun r => r.cmd == c))).foldr max 0 : Nat)

/-- Row of a group with the largest id: the concrete choice this model
pins for the bare-column representative of a `GROUP BY` row.  SQLite
leaves that representative arbitrary when the query has several
aggregates, so theorems must not depend on this choice except where
the group is a singleton (where every choice coincides). -/
def maxIdRow (r : Row) (rest : List Row) : Row :=
  rest.foldl (fun acc x => if acc.id < x.id then x else acc) r

/-- Per-row contribution of the overlap sub-select: number of distinct
templates among the rows with id in `[c.id - lookback, c.id)` whose
template is one of the three window templates, divided by
`lookback = 3`.  The sub-select runs against the full, unfiltered
`commands` table. -/
def overlapRow (log : List Row) (t0 t1 t2 : String) (r : Row) : Rat :=
  (((((log.filter (fun c2 => r.id - 3 ≤ c2.id && c2.id < r.id &&
        (c2.cmd_tpl == t0 || c2.cmd_tpl == t1 || c2.cmd_tpl == t2))).map
          Row.cmd_tpl).dedup).length : Nat) : Rat) / 3

/-- Per-row contribution of the immediate-overlap sub-select: the
number of rows whose id is exactly `c.id - 1` and whose template
equals the first window template. -/
def immRow (log : List Row) (t0 : String) (r : Row) : Rat :=
  ((log.countP (fun c2 => c2.id == r.id - 1 && c2.cmd_tpl == t0) : Nat) : Rat)

/-- Materialization of one group of the `GROUP BY cmd` query: the
seven features and the rank, computed from the rows `r :: rest` of the
group exactly as the SELECT of `build_cache_table` does.  Returns
`none` on an empty group (which the builder never produces). -/
def mkViewRow (log : List Row) (w : Weights) (dir t0 t1 t2 : String)
    (wmax spread maxOcc : Rat) (now : Int) : List Row → Option ViewRow
  | [] => none
  | r :: rest =>
    let rs := r :: rest
    let rep := maxIdRow r rest
    let n : Rat := ((rs.length : Nat) : Rat)
    let ageF := qminSeed ((wmax - (r.when_run : Rat)) / spread)
      (rest.map (fun x => (wmax - (x.when_run : Rat)) / spread))
    let exitF := ((rs.countP (fun x => x.exit_code == 0) : Nat) : Rat) / n
    let recentF : Rat :=
      if rs.any (fun x => x.exit_code == 1 && now - x.when_run < 120) then 1 else 0
    let dirF := ((rs.countP (fun x => x.dir == some dir) : Nat) : Rat) / maxOcc
    let ovF := (rs.map (overlapRow log t0 t1 t2)).sum / maxOcc
    let imF := (rs.map (immRow log t0)).sum / maxOcc
    let occF := n / maxOcc
    some { id := rep.id, cmd := rep.cmd, cmd_tpl := rep.cmd_tpl,
           session_id := rep.session_id, when_run := rep.when_run,
           exit_code := rep.exit_code, dir := rep.dir,
           age_factor := ageF, exit_factor := exitF,
           recent_failure_factor := recentF, dir_factor := dirF,
           overlap_factor := ovF, immediate_overlap_factor := imF,
           occurrences_factor := occF,
           rank := w.offset + ageF * w.age + exitF * w.exit +
             recentF * w.recent_failure + dirF * w.dir + ovF * w.overlap +
             imF * w.immediate_overlap + occF * w.occurrences }

/-- Rows of the log inside the half-open query window:
`WHERE when_run > :start_time AND when_run < :end_time`. -/
def filteredLog (log : List Row) (startT endT : Int) : List Row :=
  log.filter (fun r => startT < r.when_run && r.when_run < endT)

/-- Group rows of the `GROUP BY cmd` query, one per distinct `cmd` of
the filtered log, before the `ORDER BY id DESC` sort. -/
def groupRowsOf (log : List Row) (w : Weights) (dir t0 t1 t2 : String)
    (wmax spread maxOcc : Rat) (startT endT now : Int) : List ViewRow :=
  (((filteredLog log startT endT).map Row.cmd).dedup).filterMap
    (fun c => mkViewRow log w dir t0 t1 t2 wmax spread maxOcc now
      ((filteredLog log startT endT).filter (fun r => r.cmd == c)))

/-- Output rows of the SELECT of `build_cache_table` before the
`LIMIT -1 OFFSET 1`: the groups ordered by representative id
descending. -/
def orderedGroups (log : List Row) (w : Weights) (dir t0 t1 t2 : String)
    (wmax spread maxOcc : Rat) (startT endT now : Int) : List ViewRow :=
  (groupRowsOf log w dir t0 t1 t2 wmax spread maxOcc startT endT now).insertionSort
    (fun a b => b.id ≤ a.id)

/-- Template window of `build_cache_table`: the last `lookback = 3`
templates of the session, falling back to the global tail padded with
empty strings. -/
def contextTemplates (log : List Row) (session : Option String) : List String :=
  let sessionT := lastCommandTemplates log session 3 0
  if sessionT.length < 3 then
    let globalT := lastCommandTemplates log none 3 0
    globalT ++ List.replicate (3 - globalT.length) ""
  else sessionT

/-- Model of `History::build_cache_table`.  On an empty log the two
preparation queries fail (`MIN(when_run)` is NULL and the
`max_occurrences` query returns no row), so the call panics: `none`.
Otherwise the contents of the temporary `contextual_commands` table
are returned, in stored order: groups by representative id descending
with the first one skipped (`LIMIT -1 OFFSET 1`). -/
def buildCacheTable (log : List Row) (w : Weights) (dir : String) (session : Option String)
    (startTime endTime : Option Int) (now : Int) : Option (List ViewRow) :=
  if log.isEmpty then none
  else
    let ts := contextTemplates log session
    let t0 := ts.getD 0 ""
    let t1 := ts.getD 1 ""
    let t2 := ts.getD 2 ""
    some ((orderedGroups log w dir t0 t1 t2 ((logWhenMax log : Int) : Rat)
      (logSpread log) (maxOccurrences log) (startTime.getD 0) (endTime.getD now) now).drop 1)

/-- Model of `History::find_matches(cmd, num)`: rows of the stored
view whose `cmd` matches the LIKE pattern `%cmd%`, ordered by rank
descending and cut to `num` rows, 10 when `num` is absent.  The SQL
has no secondary sort key, and SQLite leaves the relative order of
equal-rank rows undefined; the stable sort used here is one concrete
pin of that freedom, and no theorem depends on it. -/
def findMatches (view : List ViewRow) (cmd : String) (num : Option Nat) : List ViewRow :=
  let likeQuery := "%" ++ cmd ++ "%"
  (((view.filter (fun v => sqlLike likeQuery.toList v.cmd.toList)).insertionSort
      (fun a b => b.rank ≤ a.rank)).take (num.getD 10))

/-- State of a `History` handle as far as the claims are concerned:
the persistent command log and the transient scored view. -/
structure Hist where
  log : List Row
  view : List ViewRow
  deriving DecidableEq, Repr

/-- Effect of `build_cache_table` on the handle state: the old temp
table is dropped and the view is rebuilt from the unchanged log;
`none` models the panic on an empty log. -/
def buildCacheTableState (h : Hist) (w : Weights) (dir : String) (session : Option String)
    (startTime endTime : Option Int) (now : Int) : Option Hist :=
  match buildCacheTable h.log w dir session startTime endTime now with
  | none => none
  | some v => some { log := h.log, view := v }

/-! Concrete rows used by the counterexamples and witnesses. -/

/-- Weights with every coefficient zero, used by concrete examples. -/
def demoW : Weights := ⟨0, 0, 0, 0, 0, 0, 0, 0⟩

/-- Concrete row: id 1, cmd `a`, a failure (exit code 1) at time 50. -/
def demoFail : Row :=
  { id := 1, cmd := "a", cmd_tpl := "a", session_id := "s", when_run := 50,
    exit_code := 1, dir := some "/d", old_dir := none }

/-- Concrete row: id 2, cmd `b`, success at time 60. -/
def demoOk : Row :=
  { id := 2, cmd := "b", cmd_tpl := "b", session_id := "s", when_run := 60,
    exit_code := 0, dir := some "/d", old_dir := none }

/-- Concrete row: id 1, cmd `abc`. -/
def demoAbc : Row :=
  { id := 1, cmd := "abc", cmd_tpl := "abc", session_id := "s", when_run := 10,
    exit_code := 0, dir := some "/d", old_dir := none }

/-- Concrete row: id 2, cmd `q`. -/
def demoQ : Row :=
  { id := 2, cmd := "q", cmd_tpl := "q", session_id := "s", when_run := 20,
    exit_code := 0, dir := some "/d", old_dir := none }

/-- Concrete row: id 1, cmd `m`, run at time 0. -/
def demoM1 : Row :=
  { id := 1, cmd := "m", cmd_tpl := "m", session_id := "s", when_run := 0,
    exit_code := 0, dir := some "/d", old_dir := none }

/-- Concrete row: id 2, cmd `m`, run at time 100. -/
def demoM2 : Row :=
  { id := 2, cmd := "m", cmd_tpl := "m", session_id := "s", when_run := 100,
    exit_code := 0, dir := some "/d", old_dir := none }

/-- Concrete row: id 3, cmd `z`, run at time 100. -/
def demoZ3 : Row :=
  { id := 3, cmd := "z", cmd_tpl := "z", session_id := "s", when_run := 100,
    exit_code := 0, dir := some "/d", old_dir := none }

/-! Order instances used by the sortedness lemmas. -/

instance : IsTotal ViewRow (fun a b => b.rank ≤ a.rank) :=
  ⟨fun a b => le_total b.rank a.rank⟩

instance : IsTrans ViewRow (fun a b => b.rank ≤ a.rank) :=
  ⟨fun _ _ _ h1 h2 => le_trans h2 h1⟩

instance : IsTotal ViewRow (fun a b => b.id ≤ a.id) :=
  ⟨fun a b => le_total b.id a.id⟩

instance : IsTrans ViewRow (fun a b => b.id ≤ a.id) :=
  ⟨fun _ _ _ h1 h2 => le_trans h2 h1⟩

/-- Representative id of the group of `cmd = c` in the filtered log
(`0` when no row matches, which the callers never hit). -/
def groupRepId (fl : List Row) (c : String) : Int :=
  match fl.filter (fun r => r.cmd == c) with
  | [] => 0
  | r :: rest => (maxIdRow r rest).id

/-- Row appended by `add`: id is the next AUTOINCREMENT value. -/
def addedRow (log : List Row) (command cmd_tpl session_id dirS : String)
    (when_run exit_code : Int) (old_dir : Option String) : Row :=
  { id := nextId log, cmd := command, cmd_tpl := cmd_tpl, session_id := session_id,
    when_run := when_run, exit_code := exit_code, dir := some dirS, old_dir := old_dir }

/-- View materialized from the two-row demo log, used by witnesses. -/
def demoView1 : List ViewRow :=
  (buildCacheTable [demoFail, demoOk] demoW "/d" none (some 0) (some 1000) 500).getD []

/-- First row of `demoView1`. -/
def demoHead1 : ViewRow := demoView1.headD default

/-- View materialized from the three-row demo log, used by witnesses. -/
def demoView2 : List ViewRow :=
  (buildCacheTable [demoM1, demoM2, demoZ3] demoW "/d" none (some (-1)) (some 1000) 500).getD []

/-- First row of `demoView2`. -/
def demoHead2 : ViewRow := demoView2.headD default

/-- C9: `build_cache_table` fails (both preparation queries panic)
exactly on the empty command log; it never materializes a view from an
empty log, and a nonempty log always materializes one. -/
theorem build_cache_table_none_iff_empty (log : List Row) (w : Weights) (dir : String)
    (session : Option String) (startTime endTime : Option Int) (now : Int) :
    buildCacheTable log w dir session startTime endTime now = none ↔ log = [] := by
  cases log <;> simp [buildCacheTable]

/-- C10: with the log `[abc, q]` the view holds the single group `abc`,
and `find_matches "a_c"` returns that row even though `a_c` is not a
literal substring of `abc`: the search string is spliced into the LIKE
pattern unescaped, so `_` acts as a one-character wildcard. -/
theorem find_matches_wildcard_unescaped :
    (buildCacheTable [demoAbc, demoQ] demoW "/d" none (some 0) (some 1000) 500).map
        (fun v => (findMatches v "a_c" none).map ViewRow.cmd) = some ["abc"] ∧
      containsLiteral "abc" "a_c" = false := by
  constructor
  · rfl
  · rfl

/-- C3 counterexample: `find_matches "ABC"` returns the row whose cmd
is `abc`, although `abc` does not contain `ABC` as a case-sensitive
substring — SQL LIKE matches ASCII case-insensitively. -/
theorem find_matches_case_insensitive_cex :
    (buildCacheTable [demoAbc, demoQ] demoW "/d" none (some 0) (some 1000) 500).map
        (fun v => (findMatches v "ABC" none).map ViewRow.cmd) = some ["abc"] ∧
      containsLiteral "abc" "ABC" = false := by
  constructor
  · rfl
  · rfl

/-- C1 counterexample: in the two-row log `[a(id 1), b(id 2)]` the
materialized view consists of exactly the group `a` — the earliest-id
row is grouped into the view, and it is the latest group `b` that is
excluded, contradicting the claimed sentinel rule. -/
theorem build_cache_table_sentinel_cex :
    (buildCacheTable [demoFail, demoOk] demoW "/d" none (some 0) (some 1000) 500).map
        (List.map ViewRow.cmd) = some ["a"] ∧
      demoFail.id = 1 ∧ demoFail.cmd = "a" ∧ demoOk.id = 2 ∧ demoOk.cmd = "b" := by
  refine ⟨rfl, rfl, rfl, rfl, rfl⟩

/-- C2 counterexample: appending `b` (when_run 60, inside the window)
to the one-row log `[a]` and rebuilding yields a view whose only group
is `a`: the view does not contain a group representing the appended
command `b`. -/
theorem add_then_build_cex :
    (buildCacheTable (add [demoFail] "b" "b" "s2" "/d" 60 0 none) demoW "/d" none
        (some 0) (some 1000) 500).map (List.map ViewRow.cmd) = some ["a"] ∧
      (0 : Int) < 60 ∧ (60 : Int) < 1000 := by
  refine ⟨rfl, by decide, by decide⟩

/-- C5 counterexample: log `[m(id 1, t 0), m(id 2, t 100), z(id 3, t 100)]`
with window `(-1, 1000)`.  The emitted group `m` has `age_factor = 0`
(the code takes the newest occurrence), while the claimed formula
`(when_run_max - MIN(when_run)) / (when_run_max - when_run_min)` over
the oldest occurrence of the group evaluates to 1. -/
theorem age_factor_cex :
    (buildCacheTable [demoM1, demoM2, demoZ3] demoW "/d" none (some (-1)) (some 1000) 500).map
        (fun v => v.map ViewRow.age_factor) = some [0] ∧
      ((logWhenMax [demoM1, demoM2, demoZ3] : Rat) -
          (imin0 ([demoM1, demoM2].map Row.when_run) : Rat)) /
        logSpread [demoM1, demoM2, demoZ3] = 1 ∧
      (0 : Rat) ≠ 1 := by
  have h1 : (buildCacheTable [demoM1, demoM2, demoZ3] demoW "/d" none (some (-1)) (some 1000)
      500).map (fun v => v.map ViewRow.age_factor) =
      some [qminSeed ((((100 : Int) : Rat) - ((0 : Int) : Rat)) /
          (((100 : Int) : Rat) - ((0 : Int) : Rat)))
        [(((100 : Int) : Rat) - ((100 : Int) : Rat)) /
          (((100 : Int) : Rat) - ((0 : Int) : Rat))]] := rfl
  have h2 : ((logWhenMax [demoM1, demoM2, demoZ3] : Rat) -
      (imin0 ([demoM1, demoM2].map Row.when_run) : Rat)) / logSpread [demoM1, demoM2, demoZ3] =
      (((100 : Int) : Rat) - ((0 : Int) : Rat)) / (((100 : Int) : Rat) - ((0 : Int) : Rat)) := rfl
  refine ⟨?_, ?_, by norm_num⟩
  · rw [h1]
    norm_num [qminSeed, min_def]
  · rw [h2]
    norm_num

/-- C6 counterexample: two calls of `build_cache_table` with identical
arguments over the identical log, made at clock readings 100 and 300,
produce different views: the failure of row `a` (when_run 50) is within
the 120-second window at the first call only, so
`recent_failure_factor` flips from 1 to 0. -/
theorem build_cache_table_clock_cex :
    (buildCacheTable [demoFail, demoOk] demoW "/d" none (some 0) (some 1000) 100).map
        (fun v => v.map ViewRow.recent_failure_factor) = some [1] ∧
      (buildCacheTable [demoFail, demoOk] demoW "/d" none (some 0) (some 1000) 300).map
        (fun v => v.map ViewRow.recent_failure_factor) = some [0] ∧
      buildCacheTable [demoFail, demoOk] demoW "/d" none (some 0) (some 1000) 100 ≠
        buildCacheTable [demoFail, demoOk] demoW "/d" none (some 0) (some 1000) 300 := by
  have hA : (buildCacheTable [demoFail, demoOk] demoW "/d" none (some 0) (some 1000) 100).map
      (fun v => v.map ViewRow.recent_failure_factor) = some [(1 : Rat)] := rfl
  have hB : (buildCacheTable [demoFail, demoOk] demoW "/d" none (some 0) (some 1000) 300).map
      (fun v => v.map ViewRow.recent_failure_factor) = some [(0 : Rat)] := rfl
  refine ⟨hA, hB, fun h => ?_⟩
  rw [h, hB] at hA
  simp only [Option.some.injEq, List.cons.injEq] at hA
  exact absurd hA.1 (by norm_num)

/-- C6 (amended): at a fixed clock reading the rebuild is an
idempotent, deterministic state transformer — the view is dropped and
rebuilt as a pure function of the unchanged log and the arguments, so
a second identical call leaves the state unchanged. -/
theorem build_cache_table_idempotent (h : Hist) (w : Weights) (dir : String)
    (session : Option String) (startTime endTime : Option Int) (now : Int) :
    (buildCacheTableState h w dir session startTime endTime now).bind
        (fun h2 => buildCacheTableState h2 w dir session startTime endTime now) =
      buildCacheTableState h w dir session startTime endTime now := by
  unfold buildCacheTableState
  rcases hb : buildCacheTable h.log w dir session startTime endTime now with _ | v
  · rfl
  · simp only [Option.some_bind]
    rw [show buildCacheTable ({ log := h.log, view := v } : Hist).log w dir session startTime
      endTime now = buildCacheTable h.log w dir session startTime endTime now from rfl, hb]

/-- C4: `should_add` returns false exactly when one of the five filter
rules applies — the command is empty, starts with `#mcfly:`, starts
with a space, is one of the seven fixed ignored commands, or equals
the cmd of the most recently recorded command across all sessions —
and true otherwise.  All the comparisons are plain case-sensitive
string comparisons. -/
theorem should_add_false_iff (log : List Row) (c : String) :
    shouldAdd log c = false ↔
      c = "" ∨ c.startsWith "#mcfly:" = true ∨ c.startsWith " " = true ∨
        c ∈ IGNORED_COMMANDS ∨
        ∃ last, lastCommand log none = some last ∧ c = last.cmd := by
  unfold shouldAdd
  split_ifs with h1 h2 h3 h4
  · exact iff_of_true rfl (Or.inl ((String.isEmpty_iff c).mp h1))
  · exact iff_of_true rfl (Or.inr (Or.inl h2))
  · exact iff_of_true rfl (Or.inr (Or.inr (Or.inl h3)))
  · exact iff_of_true rfl (Or.inr (Or.inr (Or.inr (Or.inl (by simpa using h4)))))
  · rcases hl : lastCommand log none with _ | last
    · constructor
      · intro h
        simp at h
      · rintro (h | h | h | h | ⟨l, hsome, _⟩)
        · exact absurd ((String.isEmpty_iff c).mpr h) h1
        · exact absurd h h2
        · exact absurd h h3
        · exact absurd (by simpa using h) h4
        · simp at hsome
    · constructor
      · intro h
        refine Or.inr (Or.inr (Or.inr (Or.inr ⟨last, rfl, ?_⟩)))
        simpa using h
      · rintro (h | h | h | h | ⟨l, hsome, hc⟩)
        · exact absurd ((String.isEmpty_iff c).mpr h) h1
        · exact absurd h h2
        · exact absurd h h3
        · exact absurd (by simpa using h) h4
        · injection hsome with hsame
          subst hsame
          simp [hc]

/-- C3 (amended): `find_matches(s, n)` returns only rows whose `cmd`
matches the SQL LIKE pattern `%s%` (ASCII case-insensitive containment
with `%`/`_` in `s` acting as wildcards), in non-increasing rank
order, with at most `n` entries (at most 10 when `n` is omitted). -/
theorem find_matches_spec (view : List ViewRow) (s : String) (num : Option Nat) :
    (∀ v ∈ findMatches view s num, sqlLike ("%" ++ s ++ "%").toList v.cmd.toList = true) ∧
      List.Pairwise (fun a b => b.rank ≤ a.rank) (findMatches view s num) ∧
      (findMatches view s num).length ≤ num.getD 10 := by
  unfold findMatches
  refine ⟨?_, ?_, ?_⟩
  · intro v hv
    have hv1 := List.mem_of_mem_take hv
    have hv2 := (List.perm_insertionSort _ _).mem_iff.mp hv1
    exact (List.mem_filter.mp hv2).2
  · exact List.Pairwise.sublist (List.take_sublist _ _)
      (List.sorted_insertionSort (fun a b : ViewRow => b.rank ≤ a.rank) _)
  · exact List.length_take_le _ _

/-! Helper lemmas about the group representative and the aggregates. -/

lemma maxIdRow_cons (r x : Row) (xs : List Row) :
    maxIdRow r (x :: xs) = maxIdRow (if r.id < x.id then x else r) xs := rfl

lemma maxIdRow_mem (r : Row) (rest : List Row) : maxIdRow r rest ∈ r :: rest := by
  induction rest generalizing r with
  | nil => simp [maxIdRow]
  | cons x xs ih =>
    rw [maxIdRow_cons]
    rcases List.mem_cons.mp (ih (if r.id < x.id then x else r)) with h | h
    · rw [h]
      split_ifs
      · exact List.mem_cons_of_mem _ (List.mem_cons_self _ _)
      · exact List.mem_cons_self _ _
    · exact List.mem_cons_of_mem _ (List.mem_cons_of_mem _ h)

lemma le_maxIdRow_id (r : Row) (rest : List Row) :
    ∀ y ∈ r :: rest, y.id ≤ (maxIdRow r rest).id := by
  induction rest generalizing r with
  | nil =>
    intro y hy
    rcases List.mem_cons.mp hy with rfl | hy2
    · exact le_refl _
    · cases hy2
  | cons x xs ih =>
    intro y hy
    rw [maxIdRow_cons]
    have key := ih (if r.id < x.id then x else r)
    rcases List.mem_cons.mp hy with rfl | hy2
    · have h1 : y.id ≤ (if y.id < x.id then x else y).id := by
        split_ifs with h
        · exact le_of_lt h
        · exact le_refl _
      exact le_trans h1 (key _ (List.mem_cons_self _ _))
    · rcases List.mem_cons.mp hy2 with rfl | hy3
      · have h1 : y.id ≤ (if r.id < y.id then y else r).id := by
          split_ifs with h
          · exact le_refl _
          · exact le_of_not_lt h
        exact le_trans h1 (key _ (List.mem_cons_self _ _))
      · exact key _ (List.mem_cons_of_mem _ hy3)

lemma le_foldr_max_seed (a : Int) (l : List Int) : a ≤ l.foldr max a := by
  induction l with
  | nil => exact le_refl a
  | cons x xs ih => exact le_trans ih (le_max_right x _)

lemma mem_le_foldr_max (a : Int) (l : List Int) : ∀ x ∈ l, x ≤ l.foldr max a := by
  induction l with
  | nil => intro x hx; cases hx
  | cons y ys ih =>
    intro x hx
    rcases List.mem_cons.mp hx with rfl | h
    · exact le_max_left _ _
    · exact le_trans (ih x h) (le_max_right _ _)

lemma foldr_min_le_seed (a : Int) (l : List Int) : l.foldr min a ≤ a := by
  induction l with
  | nil => exact le_refl a
  | cons x xs ih => exact le_trans (min_le_right x _) ih

lemma foldr_min_le_mem (a : Int) (l : List Int) : ∀ x ∈ l, l.foldr min a ≤ x := by
  induction l with
  | nil => intro x hx; cases hx
  | cons y ys ih =>
    intro x hx
    rcases List.mem_cons.mp hx with rfl | h
    · exact min_le_left _ _
    · exact le_trans (min_le_right _ _) (ih x h)

lemma mem_le_imax0 (l : List Int) : ∀ x ∈ l, x ≤ imax0 l := by
  intro x hx
  cases l with
  | nil => cases hx
  | cons a as =>
    rcases List.mem_cons.mp hx with rfl | h
    · exact le_foldr_max_seed _ _
    · exact mem_le_foldr_max _ _ _ h

lemma imin0_le_mem (l : List Int) : ∀ x ∈ l, imin0 l ≤ x := by
  intro x hx
  cases l with
  | nil => cases hx
  | cons a as =>
    rcases List.mem_cons.mp hx with rfl | h
    · exact foldr_min_le_seed _ _
    · exact foldr_min_le_mem _ _ _ h

lemma imin0_le_imax0 (l : List Int) (h : l ≠ []) : imin0 l ≤ imax0 l := by
  cases l with
  | nil => exact absurd rfl h
  | cons a as => exact le_trans (foldr_min_le_seed a as) (le_foldr_max_seed a as)

lemma when_le_logWhenMax (log : List Row) (r : Row) (h : r ∈ log) :
    r.when_run ≤ logWhenMax log :=
  mem_le_imax0 _ _ (List.mem_map_of_mem Row.when_run h)

lemma logWhenMin_le_when (log : List Row) (r : Row) (h : r ∈ log) :
    logWhenMin log ≤ r.when_run := by
  have h1 : logWhenMinRaw log ≤ r.when_run :=
    imin0_le_mem _ _ (List.mem_map_of_mem Row.when_run h)
  unfold logWhenMin
  split_ifs with heq
  · omega
  · exact h1

lemma logSpread_pos (log : List Row) (h : log ≠ []) : 0 < logSpread log := by
  unfold logSpread logWhenMin
  split_ifs with heq
  · rw [heq]
    push_cast
    ring_nf
    norm_num
  · have hmap : log.map Row.when_run ≠ [] := by
      cases log
      · exact absurd rfl h
      · simp
    have hle : logWhenMinRaw log ≤ logWhenMax log := imin0_le_imax0 _ hmap
    have hlt : logWhenMinRaw log < logWhenMax log := lt_of_le_of_ne hle heq
    have : ((logWhenMinRaw log : Int) : Rat) < ((logWhenMax log : Int) : Rat) := by
      exact_mod_cast hlt
    linarith

lemma qminSeed_cons (a x : Rat) (l : List Rat) : qminSeed a (x :: l) = min x (qminSeed a l) := rfl

lemma qminSeed_le_seed (a : Rat) (l : List Rat) : qminSeed a l ≤ a := by
  induction l with
  | nil => exact le_refl a
  | cons x xs ih => exact le_trans (min_le_right x _) ih

lemma le_qminSeed (a c : Rat) (l : List Rat) (ha : c ≤ a) (hl : ∀ x ∈ l, c ≤ x) :
    c ≤ qminSeed a l := by
  induction l with
  | nil => exact ha
  | cons x xs ih =>
    rw [qminSeed_cons]
    exact le_min (hl x (List.mem_cons_self _ _)) (ih (fun y hy => hl y (List.mem_cons_of_mem _ hy)))

lemma qminSeed_div_max (m s : Rat) (hs : 0 < s) (w0 : Int) (ws : List Int) :
    qminSeed ((m - (w0 : Rat)) / s) (ws.map (fun w : Int => (m - (w : Rat)) / s)) =
      (m - ((ws.foldr max w0 : Int) : Rat)) / s := by
  induction ws with
  | nil => rfl
  | cons w ws ih =>
    have step : qminSeed ((m - (w0 : Rat)) / s)
        ((w :: ws).map (fun x : Int => (m - (x : Rat)) / s)) =
        min ((m - (w : Rat)) / s)
          (qminSeed ((m - (w0 : Rat)) / s) (ws.map (fun x : Int => (m - (x : Rat)) / s))) := rfl
    rw [step, ih, min_div_div_right (le_of_lt hs), min_sub_sub_left, ← Int.cast_max]
    rfl

lemma mkViewRow_fields {log : List Row} {w : Weights} {dir t0 t1 t2 : String}
    {wmax spread maxOcc : Rat} {now : Int} {r : Row} {rest : List Row} {v : ViewRow}
    (h : mkViewRow log w dir t0 t1 t2 wmax spread maxOcc now (r :: rest) = some v) :
    v.cmd = (maxIdRow r rest).cmd ∧ v.id = (maxIdRow r rest).id ∧
      v.age_factor = qminSeed ((wmax - (r.when_run : Rat)) / spread)
        (rest.map (fun x => (wmax - (x.when_run : Rat)) / spread)) ∧
      v.exit_factor = (((r :: rest).countP (fun x => x.exit_code == 0) : Nat) : Rat) /
        (((r :: rest).length : Nat) : Rat) ∧
      v.recent_failure_factor =
        (if (r :: rest).any (fun x => x.exit_code == 1 && now - x.when_run < 120) then (1 : Rat)
          else 0) := by
  have hv := Option.some.inj h
  subst hv
  exact ⟨rfl, rfl, rfl, rfl, rfl⟩

lemma mem_buildCacheTable_view {log : List Row} {w : Weights} {dir : String}
    {session : Option String} {startTime endTime : Option Int} {now : Int}
    {view : List ViewRow} {v : ViewRow}
    (hb : buildCacheTable log w dir session startTime endTime now = some view)
    (hv : v ∈ view) :
    log ≠ [] ∧
      ∃ r rest,
        (filteredLog log (startTime.getD 0) (endTime.getD now)).filter
            (fun x => x.cmd == v.cmd) = r :: rest ∧
          mkViewRow log w dir ((contextTemplates log session).getD 0 "")
            ((contextTemplates log session).getD 1 "") ((contextTemplates log session).getD 2 "")
            ((logWhenMax log : Int) : Rat) (logSpread log) (maxOccurrences log) now
            (r :: rest) = some v := by
  unfold buildCacheTable at hb
  split_ifs at hb with hemp
  have hlog : log ≠ [] := by
    intro h
    rw [h] at hemp
    exact hemp rfl
  cases hb
  have h1 : v ∈ orderedGroups log w dir ((contextTemplates log session).getD 0 "")
      ((contextTemplates log session).getD 1 "") ((contextTemplates log session).getD 2 "")
      ((logWhenMax log : Int) : Rat) (logSpread log) (maxOccurrences log)
      (startTime.getD 0) (endTime.getD now) now := List.mem_of_mem_drop hv
  have h2 := (List.perm_insertionSort (fun a b : ViewRow => b.id ≤ a.id) _).mem_iff.mp h1
  obtain ⟨c, hc, hF⟩ := List.mem_filterMap.mp h2
  rcases hrs : (filteredLog log (startTime.getD 0) (endTime.getD now)).filter
      (fun x => x.cmd == c) with _ | ⟨r, rest⟩
  · rw [hrs] at hF
    cases hF
  · rw [hrs] at hF
    obtain ⟨hcmd, -, -, -, -⟩ := mkViewRow_fields hF
    have hrep : maxIdRow r rest ∈ r :: rest := maxIdRow_mem r rest
    rw [← hrs] at hrep
    have hceq : (maxIdRow r rest).cmd = c := by
      simpa using (List.mem_filter.mp hrep).2
    refine ⟨hlog, r, rest, ?_, hF⟩
    rw [hcmd, hceq]
    exact hrs

/-- C7: every row of the materialized scored view has `age_factor` and
`exit_factor` in the interval `[0, 1]` and `recent_failure_factor`
exactly 0 or 1. -/
theorem view_factors_bounded {log : List Row} {w : Weights} {dir : String}
    {session : Option String} {startTime endTime : Option Int} {now : Int}
    {view : List ViewRow} {v : ViewRow}
    (hb : buildCacheTable log w dir session startTime endTime now = some view)
    (hv : v ∈ view) :
    0 ≤ v.age_factor ∧ v.age_factor ≤ 1 ∧ 0 ≤ v.exit_factor ∧ v.exit_factor ≤ 1 ∧
      (v.recent_failure_factor = 0 ∨ v.recent_failure_factor = 1) := by
  obtain ⟨hlog, r, rest, hrs, hmk⟩ := mem_buildCacheTable_view hb hv
  obtain ⟨-, -, hage, hexit, hrecent⟩ := mkViewRow_fields hmk
  have hspos : 0 < logSpread log := logSpread_pos log hlog
  have hsub : ∀ y ∈ r :: rest, y ∈ log := by
    intro y hy
    rw [← hrs] at hy
    exact List.mem_of_mem_filter (List.mem_of_mem_filter hy)
  have hval : ∀ y ∈ r :: rest,
      0 ≤ (((logWhenMax log : Int) : Rat) - (y.when_run : Rat)) / logSpread log ∧
        (((logWhenMax log : Int) : Rat) - (y.when_run : Rat)) / logSpread log ≤ 1 := by
    intro y hy
    have h1 : y.when_run ≤ logWhenMax log := when_le_logWhenMax _ _ (hsub y hy)
    have h2 : logWhenMin log ≤ y.when_run := logWhenMin_le_when _ _ (hsub y hy)
    constructor
    · apply div_nonneg _ (le_of_lt hspos)
      have hc : (y.when_run : Rat) ≤ ((logWhenMax log : Int) : Rat) := by exact_mod_cast h1
      linarith
    · rw [div_le_one hspos]
      unfold logSpread
      have hc : ((logWhenMin log : Int) : Rat) ≤ (y.when_run : Rat) := by exact_mod_cast h2
      linarith
  refine ⟨?_, ?_, ?_, ?_, ?_⟩
  · rw [hage]
    apply le_qminSeed
    · exact (hval r (List.mem_cons_self _ _)).1
    · intro x hx
      obtain ⟨y, hy, rfl⟩ := List.mem_map.mp hx
      exact (hval y (List.mem_cons_of_mem _ hy)).1
  · rw [hage]
    exact le_trans (qminSeed_le_seed _ _) (hval r (List.mem_cons_self _ _)).2
  · rw [hexit]
    exact div_nonneg (Nat.cast_nonneg _) (Nat.cast_nonneg _)
  · rw [hexit]
    have hlen : (0 : Rat) < (((r :: rest).length : Nat) : Rat) := by
      exact_mod_cast Nat.succ_pos rest.length
    rw [div_le_one hlen]
    exact_mod_cast List.countP_le_length _
  · rw [hrecent]
    split_ifs
    · right
      rfl
    · left
      rfl

/-- C5 (amended): for every emitted group, `age_factor` equals
`(when_run_max - MAX(when_run)) / (when_run_max - when_run_min)` —
the NEWEST occurrence of the group, not the oldest: the SQL takes
`MIN((when_run_max - when_run) / spread)` which is attained at the
largest `when_run`.  It is 0 for a group whose latest occurrence is
the most recent in the log. -/
theorem age_factor_uses_newest {log : List Row} {w : Weights} {dir : String}
    {session : Option String} {startTime endTime : Option Int} {now : Int}
    {view : List ViewRow} {v : ViewRow}
    (hb : buildCacheTable log w dir session startTime endTime now = some view)
    (hv : v ∈ view) :
    v.age_factor = ((logWhenMax log : Rat) -
        (imax0 (((filteredLog log (startTime.getD 0) (endTime.getD now)).filter
          (fun x => x.cmd == v.cmd)).map Row.when_run) : Rat)) / logSpread log := by
  obtain ⟨hlog, r, rest, hrs, hmk⟩ := mem_buildCacheTable_view hb hv
  obtain ⟨-, -, hage, -, -⟩ := mkViewRow_fields hmk
  have hspos := logSpread_pos log hlog
  rw [hrs, hage]
  have hmap : rest.map
      (fun x => (((logWhenMax log : Int) : Rat) - (x.when_run : Rat)) / logSpread log) =
      (rest.map Row.when_run).map
        (fun t : Int => (((logWhenMax log : Int) : Rat) - (t : Rat)) / logSpread log) := by
    rw [List.map_map]
    rfl
  rw [hmap, qminSeed_div_max _ _ hspos]
  rfl

set_option maxHeartbeats 2000000 in
/-- Witness for the factor-bound theorem at a concrete log. -/
theorem view_factors_bounded_witness :
    (buildCacheTable [demoFail, demoOk] demoW "/d" none (some 0) (some 1000) 500 =
        some demoView1 ∧ demoHead1 ∈ demoView1) ∧
      (0 ≤ demoHead1.age_factor ∧ demoHead1.age_factor ≤ 1 ∧ 0 ≤ demoHead1.exit_factor ∧
        demoHead1.exit_factor ≤ 1 ∧
        (demoHead1.recent_failure_factor = 0 ∨ demoHead1.recent_failure_factor = 1)) :=
  ⟨⟨rfl, List.mem_cons_self _ _⟩,
    @view_factors_bounded [demoFail, demoOk] demoW "/d" none (some 0) (some 1000) 500
      demoView1 demoHead1 rfl (List.mem_cons_self _ _)⟩

set_option maxHeartbeats 2000000 in
/-- Witness for the age-factor theorem at a concrete log. -/
theorem age_factor_uses_newest_witness :
    (buildCacheTable [demoM1, demoM2, demoZ3] demoW "/d" none (some (-1)) (some 1000) 500 =
        some demoView2 ∧ demoHead2 ∈ demoView2) ∧
      demoHead2.age_factor = ((logWhenMax [demoM1, demoM2, demoZ3] : Rat) -
          (imax0 (((filteredLog [demoM1, demoM2, demoZ3] (-1) 1000).filter
            (fun x => x.cmd == demoHead2.cmd)).map Row.when_run) : Rat)) /
        logSpread [demoM1, demoM2, demoZ3] :=
  ⟨⟨rfl, List.mem_cons_self _ _⟩,
    @age_factor_uses_newest [demoM1, demoM2, demoZ3] demoW "/d" none (some (-1)) (some 1000) 500
      demoView2 demoHead2 rfl (List.mem_cons_self _ _)⟩

lemma filterMap_map_of_forall_some {γ : Type} (F : String → Option ViewRow) (p : ViewRow → γ)
    (g : String → γ) :
    ∀ l : List String, (∀ c ∈ l, ∃ v, F c = some v ∧ p v = g c) →
      (l.filterMap F).map p = l.map g := by
  intro l
  induction l with
  | nil => intro _; rfl
  | cons c t ih =>
    intro h
    obtain ⟨v, hF, hp⟩ := h c (List.mem_cons_self _ _)
    rw [List.filterMap_cons, hF, List.map_cons, List.map_cons, hp,
      ih (fun x hx => h x (List.mem_cons_of_mem _ hx))]

lemma nextId_gt (log : List Row) : ∀ x ∈ log.map Row.id, x < nextId log := by
  intro x hx
  have h := mem_le_foldr_max 0 (log.map Row.id) x hx
  unfold nextId
  omega

lemma group_of_mem_dedup {log : List Row} {w : Weights} {dir t0 t1 t2 : String}
    {wmax spread maxOcc : Rat} {sT eT now : Int} {c : String}
    (hc : c ∈ ((filteredLog log sT eT).map Row.cmd).dedup) :
    ∃ r rest v,
      (filteredLog log sT eT).filter (fun x => x.cmd == c) = r :: rest ∧
        mkViewRow log w dir t0 t1 t2 wmax spread maxOcc now (r :: rest) = some v ∧
        v.cmd = c ∧ v.id = (maxIdRow r rest).id ∧ maxIdRow r rest ∈ r :: rest := by
  obtain ⟨y, hy, hyc⟩ := List.mem_map.mp (List.mem_dedup.mp hc)
  have hymem : y ∈ (filteredLog log sT eT).filter (fun x => x.cmd == c) :=
    List.mem_filter.mpr ⟨hy, by simp [hyc]⟩
  obtain ⟨r, rest, hcons⟩ :=
    List.exists_cons_of_ne_nil (List.ne_nil_of_mem hymem)
  obtain ⟨v, hmk⟩ : ∃ v, mkViewRow log w dir t0 t1 t2 wmax spread maxOcc now (r :: rest) =
      some v := ⟨_, rfl⟩
  obtain ⟨hcmd, hid, -, -, -⟩ := mkViewRow_fields hmk
  have hrep : maxIdRow r rest ∈ r :: rest := maxIdRow_mem r rest
  have hrepf : maxIdRow r rest ∈ (filteredLog log sT eT).filter (fun x => x.cmd == c) := by
    rw [hcons]
    exact hrep
  have hceq : (maxIdRow r rest).cmd = c := by
    simpa using (List.mem_filter.mp hrepf).2
  exact ⟨r, rest, v, hcons, hmk, by rw [hcmd, hceq], hid, hrep⟩

lemma groupRowsOf_map_cmd (log : List Row) (w : Weights) (dir t0 t1 t2 : String)
    (wmax spread maxOcc : Rat) (sT eT now : Int) :
    (groupRowsOf log w dir t0 t1 t2 wmax spread maxOcc sT eT now).map ViewRow.cmd =
      ((filteredLog log sT eT).map Row.cmd).dedup := by
  unfold groupRowsOf
  have hpre : ∀ c ∈ ((filteredLog log sT eT).map Row.cmd).dedup,
      ∃ v, mkViewRow log w dir t0 t1 t2 wmax spread maxOcc now
          ((filteredLog log sT eT).filter (fun r => r.cmd == c)) = some v ∧
        ViewRow.cmd v = (fun c => c) c := by
    intro c hc
    obtain ⟨r, rest, v, hcons, hmk, hvcmd, -, -⟩ :=
      @group_of_mem_dedup log w dir t0 t1 t2 wmax spread maxOcc sT eT now c hc
    refine ⟨v, ?_, hvcmd⟩
    rw [hcons]
    exact hmk
  have h := filterMap_map_of_forall_some
    (fun c => mkViewRow log w dir t0 t1 t2 wmax spread maxOcc now
      ((filteredLog log sT eT).filter (fun r => r.cmd == c)))
    ViewRow.cmd (fun c => c) (((filteredLog log sT eT).map Row.cmd).dedup) hpre
  simpa using h

lemma groupRowsOf_map_id (log : List Row) (w : Weights) (dir t0 t1 t2 : String)
    (wmax spread maxOcc : Rat) (sT eT now : Int) :
    (groupRowsOf log w dir t0 t1 t2 wmax spread maxOcc sT eT now).map ViewRow.id =
      ((filteredLog log sT eT).map Row.cmd).dedup.map (groupRepId (filteredLog log sT eT)) := by
  unfold groupRowsOf
  have hpre : ∀ c ∈ ((filteredLog log sT eT).map Row.cmd).dedup,
      ∃ v, mkViewRow log w dir t0 t1 t2 wmax spread maxOcc now
          ((filteredLog log sT eT).filter (fun r => r.cmd == c)) = some v ∧
        ViewRow.id v = groupRepId (filteredLog log sT eT) c := by
    intro c hc
    obtain ⟨r, rest, v, hcons, hmk, -, hvid, -⟩ :=
      @group_of_mem_dedup log w dir t0 t1 t2 wmax spread maxOcc sT eT now c hc
    refine ⟨v, ?_, ?_⟩
    · rw [hcons]
      exact hmk
    · rw [hvid]
      unfold groupRepId
      rw [hcons]
  exact filterMap_map_of_forall_some
    (fun c => mkViewRow log w dir t0 t1 t2 wmax spread maxOcc now
      ((filteredLog log sT eT).filter (fun r => r.cmd == c)))
    ViewRow.id (groupRepId (filteredLog log sT eT))
    (((filteredLog log sT eT).map Row.cmd).dedup) hpre

lemma filteredLog_map_id_nodup {log : List Row} (sT eT : Int)
    (hnodup : (log.map Row.id).Nodup) : ((filteredLog log sT eT).map Row.id).Nodup :=
  ((List.filter_sublist log).map Row.id).nodup hnodup

lemma groupRowsOf_map_id_nodup {log : List Row} (w : Weights) (dir t0 t1 t2 : String)
    (wmax spread maxOcc : Rat) (sT eT now : Int)
    (hnodup : (log.map Row.id).Nodup) :
    ((groupRowsOf log w dir t0 t1 t2 wmax spread maxOcc sT eT now).map ViewRow.id).Nodup := by
  rw [groupRowsOf_map_id]
  have hflnodup : ((filteredLog log sT eT).map Row.id).Nodup :=
    filteredLog_map_id_nodup sT eT hnodup
  apply List.Nodup.map_on _ (List.nodup_dedup _)
  intro c1 hc1 c2 hc2 heq
  obtain ⟨r1, rest1, v1, hcons1, -, -, -, hrep1⟩ :=
    @group_of_mem_dedup log w dir t0 t1 t2 wmax spread maxOcc sT eT now c1 hc1
  obtain ⟨r2, rest2, v2, hcons2, -, -, -, hrep2⟩ :=
    @group_of_mem_dedup log w dir t0 t1 t2 wmax spread maxOcc sT eT now c2 hc2
  have hid : (maxIdRow r1 rest1).id = (maxIdRow r2 rest2).id := by
    unfold groupRepId at heq
    rw [hcons1, hcons2] at heq
    exact heq
  have hm1 : maxIdRow r1 rest1 ∈ (filteredLog log sT eT).filter (fun x => x.cmd == c1) := by
    rw [hcons1]
    exact hrep1
  have hm2 : maxIdRow r2 rest2 ∈ (filteredLog log sT eT).filter (fun x => x.cmd == c2) := by
    rw [hcons2]
    exact hrep2
  have hc1eq : (maxIdRow r1 rest1).cmd = c1 := by
    simpa using (List.mem_filter.mp hm1).2
  have hc2eq : (maxIdRow r2 rest2).cmd = c2 := by
    simpa using (List.mem_filter.mp hm2).2
  have hsame : maxIdRow r1 rest1 = maxIdRow r2 rest2 :=
    List.inj_on_of_nodup_map hflnodup (List.mem_of_mem_filter hm1)
      (List.mem_of_mem_filter hm2) hid
  rw [← hc1eq, ← hc2eq, hsame]

lemma pairwise_gt_of_sorted_nodup (l : List ViewRow)
    (hs : l.Pairwise (fun a b => b.id ≤ a.id)) (hn : (l.map ViewRow.id).Nodup) :
    l.Pairwise (fun a b => b.id < a.id) := by
  have hne : l.Pairwise (fun a b => a.id ≠ b.id) := List.pairwise_map.mp hn
  exact (hs.and hne).imp (fun h => lt_of_le_of_ne h.1 h.2.symm)

lemma orderedGroups_exclusion {log : List Row} (w : Weights) (dir t0 t1 t2 : String)
    (wmax spread maxOcc : Rat) (sT eT now : Int)
    (hnodup : (log.map Row.id).Nodup)
    (hfl : filteredLog log sT eT ≠ []) :
    ∃ g tail,
      orderedGroups log w dir t0 t1 t2 wmax spread maxOcc sT eT now = g :: tail ∧
        (∀ v ∈ tail, v.id < g.id) ∧
        ((g :: tail).map ViewRow.cmd).Perm (((filteredLog log sT eT).map Row.cmd).dedup) ∧
        g.cmd ∉ tail.map ViewRow.cmd := by
  have hperm : (orderedGroups log w dir t0 t1 t2 wmax spread maxOcc sT eT now).Perm
      (groupRowsOf log w dir t0 t1 t2 wmax spread maxOcc sT eT now) :=
    List.perm_insertionSort _ _
  have hmapcmd := groupRowsOf_map_cmd log w dir t0 t1 t2 wmax spread maxOcc sT eT now
  have hgne : groupRowsOf log w dir t0 t1 t2 wmax spread maxOcc sT eT now ≠ [] := by
    intro h
    rw [h] at hmapcmd
    have h1 : ((filteredLog log sT eT).map Row.cmd).dedup = [] := hmapcmd.symm
    rw [List.dedup_eq_nil, List.map_eq_nil_iff] at h1
    exact hfl h1
  have hogne : orderedGroups log w dir t0 t1 t2 wmax spread maxOcc sT eT now ≠ [] := by
    intro h
    rw [h] at hperm
    exact hgne hperm.symm.eq_nil
  obtain ⟨g, tail, hog⟩ := List.exists_cons_of_ne_nil hogne
  have hsort : (orderedGroups log w dir t0 t1 t2 wmax spread maxOcc sT eT now).Pairwise
      (fun a b => b.id ≤ a.id) :=
    List.sorted_insertionSort (fun a b : ViewRow => b.id ≤ a.id) _
  have hidnodup : ((orderedGroups log w dir t0 t1 t2 wmax spread maxOcc sT eT
      now).map ViewRow.id).Nodup :=
    ((hperm.map ViewRow.id).symm).nodup
      (groupRowsOf_map_id_nodup w dir t0 t1 t2 wmax spread maxOcc sT eT now hnodup)
  have hstrict := pairwise_gt_of_sorted_nodup _ hsort hidnodup
  rw [hog] at hstrict
  have hcmds : ((orderedGroups log w dir t0 t1 t2 wmax spread maxOcc sT eT
      now).map ViewRow.cmd).Perm (((filteredLog log sT eT).map Row.cmd).dedup) :=
    hmapcmd ▸ hperm.map ViewRow.cmd
  rw [hog] at hcmds
  have hnodupcmds : ((g :: tail).map ViewRow.cmd).Nodup :=
    hcmds.symm.nodup (List.nodup_dedup _)
  rw [List.map_cons] at hnodupcmds
  exact ⟨g, tail, hog, (List.pairwise_cons.mp hstrict).1, hcmds,
    (List.nodup_cons.mp hnodupcmds).1⟩

lemma buildCacheTable_eq_drop {log : List Row} (w : Weights) (dir : String)
    (session : Option String) (startTime endTime : Option Int) (now : Int)
    (hlog : log ≠ []) :
    buildCacheTable log w dir session startTime endTime now =
      some ((orderedGroups log w dir ((contextTemplates log session).getD 0 "")
        ((contextTemplates log session).getD 1 "") ((contextTemplates log session).getD 2 "")
        ((logWhenMax log : Int) : Rat) (logSpread log) (maxOccurrences log)
        (startTime.getD 0) (endTime.getD now) now).drop 1) := by
  have hempty : ¬(log.isEmpty = true) := by
    cases log
    · exact absurd rfl hlog
    · simp
  unfold buildCacheTable
  rw [if_neg hempty]

lemma orderedGroups_one_excluded {log : List Row} (w : Weights) (dir t0 t1 t2 : String)
    (wmax spread maxOcc : Rat) (sT eT now : Int)
    (hfl : filteredLog log sT eT ≠ []) :
    ∃ g tail,
      orderedGroups log w dir t0 t1 t2 wmax spread maxOcc sT eT now = g :: tail ∧
        ((g :: tail).map ViewRow.cmd).Perm (((filteredLog log sT eT).map Row.cmd).dedup) ∧
        g.cmd ∉ tail.map ViewRow.cmd := by
  have hperm : (orderedGroups log w dir t0 t1 t2 wmax spread maxOcc sT eT now).Perm
      (groupRowsOf log w dir t0 t1 t2 wmax spread maxOcc sT eT now) :=
    List.perm_insertionSort _ _
  have hmapcmd := groupRowsOf_map_cmd log w dir t0 t1 t2 wmax spread maxOcc sT eT now
  have hgne : groupRowsOf log w dir t0 t1 t2 wmax spread maxOcc sT eT now ≠ [] := by
    intro h
    rw [h] at hmapcmd
    have h1 : ((filteredLog log sT eT).map Row.cmd).dedup = [] := hmapcmd.symm
    rw [List.dedup_eq_nil, List.map_eq_nil_iff] at h1
    exact hfl h1
  have hogne : orderedGroups log w dir t0 t1 t2 wmax spread maxOcc sT eT now ≠ [] := by
    intro h
    rw [h] at hperm
    exact hgne hperm.symm.eq_nil
  obtain ⟨g, tail, hog⟩ := List.exists_cons_of_ne_nil hogne
  have hcmds : ((orderedGroups log w dir t0 t1 t2 wmax spread maxOcc sT eT
      now).map ViewRow.cmd).Perm (((filteredLog log sT eT).map Row.cmd).dedup) :=
    hmapcmd ▸ hperm.map ViewRow.cmd
  rw [hog] at hcmds
  have hnodupcmds : ((g :: tail).map ViewRow.cmd).Nodup :=
    hcmds.symm.nodup (List.nodup_dedup _)
  rw [List.map_cons] at hnodupcmds
  exact ⟨g, tail, hog, hcmds, (List.nodup_cons.mp hnodupcmds).1⟩

/-- C1 (amended): on a nonempty filtered log, `build_cache_table`
excludes exactly one GROUP — a whole distinct-`cmd` group, not the
earliest-recorded row — and every other distinct `cmd` of the filtered
log is grouped into the view (`GROUP BY cmd ... LIMIT -1 OFFSET 1`
skips exactly the first output row, one group).  Which group is
skipped is the first of the bare-column id ordering and, since SQLite
leaves the bare-column representative of a multi-aggregate `GROUP BY`
arbitrary, is not determined by the program for multi-row groups; the
counterexample shows it is not the earliest row's group. -/
theorem build_cache_table_excludes_one_group (log : List Row) (w : Weights) (dir : String)
    (session : Option String) (startTime endTime : Option Int) (now : Int)
    (hfl : filteredLog log (startTime.getD 0) (endTime.getD now) ≠ []) :
    ∃ c view,
      buildCacheTable log w dir session startTime endTime now = some view ∧
        c ∉ view.map ViewRow.cmd ∧
        (c :: view.map ViewRow.cmd).Perm
          (((filteredLog log (startTime.getD 0) (endTime.getD now)).map Row.cmd).dedup) := by
  have hlog : log ≠ [] := by
    intro h
    rw [h] at hfl
    exact hfl rfl
  obtain ⟨g, tail, hog, hcmds, hgnot⟩ :=
    orderedGroups_one_excluded w dir ((contextTemplates log session).getD 0 "")
      ((contextTemplates log session).getD 1 "") ((contextTemplates log session).getD 2 "")
      ((logWhenMax log : Int) : Rat) (logSpread log) (maxOccurrences log)
      (startTime.getD 0) (endTime.getD now) now hfl
  refine ⟨g.cmd, tail, ?_, hgnot, ?_⟩
  · rw [buildCacheTable_eq_drop w dir session startTime endTime now hlog, hog]
    rfl
  · rw [← List.map_cons]
    exact hcmds

set_option maxHeartbeats 2000000 in
/-- Witness for the one-group-exclusion theorem at the concrete
two-row log. -/
theorem build_cache_table_excludes_one_group_witness :
    (filteredLog [demoFail, demoOk] ((some 0 : Option Int).getD 0)
        ((some 1000 : Option Int).getD 500) ≠ []) ∧
      ∃ c view,
        buildCacheTable [demoFail, demoOk] demoW "/d" none (some 0) (some 1000) 500 =
            some view ∧
          c ∉ view.map ViewRow.cmd ∧
          (c :: view.map ViewRow.cmd).Perm
            (((filteredLog [demoFail, demoOk] ((some 0 : Option Int).getD 0)
              ((some 1000 : Option Int).getD 500)).map Row.cmd).dedup) :=
  ⟨by decide,
    build_cache_table_excludes_one_group [demoFail, demoOk] demoW "/d" none (some 0)
      (some 1000) 500 (by decide)⟩

lemma add_eq_append (log : List Row) (command cmd_tpl session_id dirS : String)
    (when_run exit_code : Int) (old_dir : Option String) :
    add log command cmd_tpl session_id dirS when_run exit_code old_dir =
      log ++ [addedRow log command cmd_tpl session_id dirS when_run exit_code old_dir] := rfl

lemma mem_groupRowsOf_exists_row {log : List Row} {w : Weights} {dir t0 t1 t2 : String}
    {wmax spread maxOcc : Rat} {sT eT now : Int} {v : ViewRow}
    (hv : v ∈ groupRowsOf log w dir t0 t1 t2 wmax spread maxOcc sT eT now) :
    ∃ y ∈ filteredLog log sT eT, v.id = y.id := by
  obtain ⟨c, hc, hF⟩ := List.mem_filterMap.mp hv
  rcases hcons : (filteredLog log sT eT).filter (fun r => r.cmd == c) with _ | ⟨r, rest⟩
  · rw [hcons] at hF
    cases hF
  · rw [hcons] at hF
    obtain ⟨-, hid, -, -, -⟩ := mkViewRow_fields hF
    have hrep := maxIdRow_mem r rest
    rw [← hcons] at hrep
    exact ⟨maxIdRow r rest, List.mem_of_mem_filter hrep, hid⟩

/-- C2 (amended): after `add(r)` with a command that does not already
occur in the log, followed by `build_cache_table` with a time window
containing `r.when_run`, the scored view does NOT contain a group
representing `r.cmd`, while every other distinct `cmd` of the filtered
log does get a group in the view.  Under the freshness hypothesis the
appended row forms a singleton group, so its bare-column id is forced
to be the new, strictly largest id no matter which representative
SQLite picks for the other groups (every other group's bare id is the
id of some older row), and `ORDER BY id DESC ... OFFSET 1` skips
exactly this group.  Without freshness the representative of the
multi-row group of `r.cmd` is arbitrary, and the program does not
determine whether that group is the skipped one. -/
theorem add_then_build_excludes_new_command (log : List Row) (w : Weights) (dir : String)
    (session : Option String) (startTime endTime : Option Int) (now : Int)
    (command cmd_tpl session_id dirS : String) (when_run exit_code : Int)
    (old_dir : Option String)
    (hnodup : (log.map Row.id).Nodup)
    (hfresh : ∀ r ∈ log, r.cmd ≠ command)
    (hlo : startTime.getD 0 < when_run) (hhi : when_run < endTime.getD now) :
    ∃ view,
      buildCacheTable (add log command cmd_tpl session_id dirS when_run exit_code old_dir)
          w dir session startTime endTime now = some view ∧
        command ∉ view.map ViewRow.cmd ∧
        ∀ c ∈ (filteredLog (add log command cmd_tpl session_id dirS when_run exit_code old_dir)
            (startTime.getD 0) (endTime.getD now)).map Row.cmd,
          c ≠ command → c ∈ view.map ViewRow.cmd := by
  simp only [add_eq_append]
  let N : Row := addedRow log command cmd_tpl session_id dirS when_run exit_code old_dir
  have hnodup2 : ((log ++ [N]).map Row.id).Nodup := by
    rw [List.map_append, List.nodup_append]
    refine ⟨hnodup, List.nodup_singleton _, ?_⟩
    intro x hx hx2
    have hlt := nextId_gt log x hx
    have hxeq : x = nextId log := by simpa using hx2
    omega
  have hNmem : N ∈ filteredLog (log ++ [N]) (startTime.getD 0) (endTime.getD now) := by
    refine List.mem_filter.mpr ⟨?_, ?_⟩
    · exact List.mem_append.mpr (Or.inr (List.mem_singleton.mpr rfl))
    · simp only [Bool.and_eq_true, decide_eq_true_eq]
      exact ⟨hlo, hhi⟩
  have hfl2 : filteredLog (log ++ [N]) (startTime.getD 0) (endTime.getD now) ≠ [] :=
    List.ne_nil_of_mem hNmem
  obtain ⟨g, tail, hog, hgt, hcmds, hgnot⟩ :=
    orderedGroups_exclusion w dir ((contextTemplates (log ++ [N]) session).getD 0 "")
      ((contextTemplates (log ++ [N]) session).getD 1 "")
      ((contextTemplates (log ++ [N]) session).getD 2 "")
      ((logWhenMax (log ++ [N]) : Int) : Rat) (logSpread (log ++ [N]))
      (maxOccurrences (log ++ [N])) (startTime.getD 0) (endTime.getD now) now hnodup2 hfl2
  have hidbound : ∀ y ∈ log ++ [N], y.id ≤ N.id := by
    intro y hy
    rcases List.mem_append.mp hy with h | h
    · exact le_of_lt (nextId_gt log y.id (List.mem_map_of_mem Row.id h))
    · rw [List.mem_singleton.mp h]
  have hbound : ∀ v ∈ g :: tail, v.id ≤ N.id := by
    intro v hv
    rw [← hog] at hv
    have hv2 := (List.perm_insertionSort (fun a b : ViewRow => b.id ≤ a.id) _).mem_iff.mp hv
    obtain ⟨y, hy, hid⟩ := mem_groupRowsOf_exists_row hv2
    rw [hid]
    exact hidbound y (List.mem_of_mem_filter hy)
  have hcmem : command ∈
      (((filteredLog (log ++ [N]) (startTime.getD 0) (endTime.getD now))).map Row.cmd).dedup :=
    List.mem_dedup.mpr (List.mem_map.mpr ⟨N, hNmem, rfl⟩)
  have hsplit : filteredLog (log ++ [N]) (startTime.getD 0) (endTime.getD now) =
      filteredLog log (startTime.getD 0) (endTime.getD now) ++
        filteredLog [N] (startTime.getD 0) (endTime.getD now) := by
    unfold filteredLog
    exact List.filter_append _ _
  have hN1 : filteredLog [N] (startTime.getD 0) (endTime.getD now) = [N] := by
    have hpred : (decide (startTime.getD 0 < N.when_run) &&
        decide (N.when_run < endTime.getD now)) = true := by
      simp only [Bool.and_eq_true, decide_eq_true_eq]
      exact ⟨hlo, hhi⟩
    unfold filteredLog
    rw [List.filter_cons, if_pos hpred]
    rfl
  have hlogpart : (filteredLog log (startTime.getD 0) (endTime.getD now)).filter
      (fun x => x.cmd == command) = [] := by
    rw [List.eq_nil_iff_forall_not_mem]
    intro a ha
    have h1 := List.mem_filter.mp ha
    have h2 : a.cmd = command := by simpa using h1.2
    exact hfresh a (List.mem_of_mem_filter h1.1) h2
  have hNpred : (N.cmd == command) = true := by
    simp only [beq_iff_eq]
    rfl
  have hcons : (filteredLog (log ++ [N]) (startTime.getD 0) (endTime.getD now)).filter
      (fun x => x.cmd == command) = [N] := by
    rw [hsplit, List.filter_append, hlogpart, hN1, List.nil_append,
      List.filter_cons, if_pos hNpred]
    rfl
  obtain ⟨vc, hmk⟩ : ∃ vc, mkViewRow (log ++ [N]) w dir
      ((contextTemplates (log ++ [N]) session).getD 0 "")
      ((contextTemplates (log ++ [N]) session).getD 1 "")
      ((contextTemplates (log ++ [N]) session).getD 2 "")
      ((logWhenMax (log ++ [N]) : Int) : Rat) (logSpread (log ++ [N]))
      (maxOccurrences (log ++ [N])) now [N] = some vc := ⟨_, rfl⟩
  obtain ⟨hvcmd0, hvid0, -, -, -⟩ := mkViewRow_fields hmk
  have hvcmd : vc.cmd = command := by
    rw [hvcmd0]
    rfl
  have hvidN : vc.id = N.id := by
    rw [hvid0]
    rfl
  have hvcmem : vc ∈ groupRowsOf (log ++ [N]) w dir
      ((contextTemplates (log ++ [N]) session).getD 0 "")
      ((contextTemplates (log ++ [N]) session).getD 1 "")
      ((contextTemplates (log ++ [N]) session).getD 2 "")
      ((logWhenMax (log ++ [N]) : Int) : Rat) (logSpread (log ++ [N]))
      (maxOccurrences (log ++ [N])) (startTime.getD 0) (endTime.getD now) now := by
    refine List.mem_filterMap.mpr ⟨command, hcmem, ?_⟩
    show mkViewRow (log ++ [N]) w dir
      ((contextTemplates (log ++ [N]) session).getD 0 "")
      ((contextTemplates (log ++ [N]) session).getD 1 "")
      ((contextTemplates (log ++ [N]) session).getD 2 "")
      ((logWhenMax (log ++ [N]) : Int) : Rat) (logSpread (log ++ [N]))
      (maxOccurrences (log ++ [N])) now
      ((filteredLog (log ++ [N]) (startTime.getD 0) (endTime.getD now)).filter
        (fun r => r.cmd == command)) = some vc
    rw [hcons]
    exact hmk
  have hvcog : vc ∈ g :: tail := by
    rw [← hog]
    exact (List.perm_insertionSort (fun a b : ViewRow => b.id ≤ a.id) _).mem_iff.mpr hvcmem
  have hvceqg : vc = g := by
    rcases List.mem_cons.mp hvcog with h | h
    · exact h
    · exfalso
      have h1 := hgt vc h
      have h2 := hbound g (List.mem_cons_self _ _)
      rw [hvidN] at h1
      omega
  have hgcmd : g.cmd = command := by
    rw [← hvceqg]
    exact hvcmd
  refine ⟨tail, ?_, ?_, ?_⟩
  · rw [buildCacheTable_eq_drop w dir session startTime endTime now
      (List.append_ne_nil_of_right_ne_nil log (by simp)), hog]
    rfl
  · rw [← hgcmd]
    exact hgnot
  · intro c hc hne
    have hcd := List.mem_dedup.mpr hc
    have hmem2 := hcmds.symm.mem_iff.mp hcd
    rw [List.map_cons] at hmem2
    rcases List.mem_cons.mp hmem2 with h | h
    · exact absurd (h.trans hgcmd) hne
    · exact h

set_option maxHeartbeats 2000000 in
/-- Witness for the append-then-rebuild theorem at the concrete
one-row log. -/
theorem add_then_build_excludes_new_command_witness :
    (([demoFail].map Row.id).Nodup ∧ (∀ r ∈ [demoFail], r.cmd ≠ "b") ∧
        ((some 0 : Option Int).getD 0 < 60 ∧
          (60 : Int) < (some 1000 : Option Int).getD 500)) ∧
      ∃ view,
        buildCacheTable (add [demoFail] "b" "b" "s2" "/d" 60 0 none) demoW "/d" none
            (some 0) (some 1000) 500 = some view ∧
          "b" ∉ view.map ViewRow.cmd ∧
          ∀ c ∈ (filteredLog (add [demoFail] "b" "b" "s2" "/d" 60 0 none)
              ((some 0 : Option Int).getD 0) ((some 1000 : Option Int).getD 500)).map Row.cmd,
            c ≠ "b" → c ∈ view.map ViewRow.cmd :=
  ⟨⟨by decide, by decide, by decide, by decide⟩,
    add_then_build_excludes_new_command [demoFail] demoW "/d" none (some 0) (some 1000) 500
      "b" "b" "s2" "/d" 60 0 none (by decide) (by decide) (by decide) (by decide)⟩
